import Mathlib

/-!
Verification of the address-pool subsystem of cjepson/btcwallet
(`wallet/addresspool.go`).

The pool logic (`initialize`, `GetNewAddress`, `BatchFinish`,
`BatchRollback`, `CloseAddressPools`) is embedded shallowly.  The external
collaborators (the waddrmgr address manager, the chain server and the
notification sink) are opaque capabilities consumed through interfaces; they
are represented by an `Env` of oracle functions together with a `MgrState`
holding the manager's mutable data (its per-branch derivation cursor and the
persisted next-to-use checkpoint pair).

Addresses are identifiers; we use `Nat`.  Encoding/decoding of addresses and
`Hash160` comparison are modelled as the identity, so two addresses are equal
exactly when their identifiers are equal.
-/

/-- Address identifiers (`dcrutil.Address` rendered through its encoding). -/
abbrev Addr := Nat

/-- `addressPoolBuffer`: number of addresses fetched when the pool runs out. -/
def addressPoolBuffer : Nat := 20

/-- `waddrmgr.ExternalBranch`. -/
def ExternalBranch : Nat := 0

/-- `waddrmgr.InternalBranch`. -/
def InternalBranch : Nat := 1

/-- `2^32`; the pool's `index` field is a Go `uint32` and wraps at this. -/
def u32 : Nat := 4294967296

/-- Modelled from the spec: the immutable part of the external collaborators
(Derivation Source, Chain Usage Oracle, Notification Sink).  `addrOf b i` is
the deterministic address derived at index `i` on branch `b`; the `...Ok`
fields are failure oracles for the fallible external calls. -/
structure Env where
  /-- Deterministic HD derivation: branch, index ↦ address. -/
  addrOf : Nat → Nat → Addr
  /-- Whether `Manager.GetAddress` succeeds at (branch, index). -/
  getAddressOk : Nat → Nat → Bool
  /-- Whether `Manager.NextInternal/ExternalAddresses` succeeds, keyed by the
  branch and the manager's current next derivation index. -/
  nextAddrsOk : Nat → Nat → Bool
  /-- Whether `chainSvr.NotifyReceived` succeeds for a given address. -/
  notifyOk : Addr → Bool
  /-- Whether `Manager.StoreNextToUseAddresses` succeeds. -/
  storeOk : Bool
  /-- The wallet's `addressReuse` flag. -/
  addressReuse : Bool
  /-- `existsAddressOnChain` answer. -/
  existsOnChain : Addr → Bool
  /-- Whether `existsAddressOnChain` succeeds. -/
  existsOk : Addr → Bool
  /-- Last known managed-address index per branch
  (`Manager.LastInternal/ExternalAddress`); `0` with `lastIdxOk` means the
  address was not found, i.e. a fresh wallet. -/
  lastIdx : Nat → Nat
  /-- Whether the last-address lookup succeeds (an error other than
  `ErrAddressNotFound`). -/
  lastIdxOk : Nat → Bool
  /-- Whether `Manager.NextToUseAddresses` succeeds. -/
  nextToUseOk : Bool

/-- Modelled from the spec: the mutable state of the Derivation Source —
its next derivation index per branch and the persisted next-to-use
checkpoint pair. -/
structure MgrState where
  /-- Next index `NextInternal/ExternalAddresses` will derive, per branch. -/
  nextIdx : Nat → Nat
  /-- Persisted next-to-use external address (`nil` = absent). -/
  storedExt : Option Addr
  /-- Persisted next-to-use internal address (`nil` = absent). -/
  storedInt : Option Addr

/-- The `addressPool` struct.  `cursor` is a Go `int` (hence `Int`),
`index` a Go `uint32` (a `Nat` kept below `u32`), the `mutex` pointer is
abstracted to the flag `mutexSet` (`true` iff non-nil). -/
structure PoolState where
  addresses : List Addr
  cursor : Int
  branch : Nat
  index : Nat
  started : Bool
  mutexSet : Bool
deriving DecidableEq, Repr

/-- `NewAddressPool`: the Go struct literal sets `started: false` and leaves
every other field at its zero value (`nil` slice, `0`, `nil` mutex). -/
def NewAddressPool : PoolState :=
  { addresses := [], cursor := 0, branch := 0, index := 0,
    started := false, mutexSet := false }

/-- `getLastAddressIndex`: dispatches on the branch, returns `(0, error)` for
an unknown branch, `(0, ok)` when the lookup reports address-not-found and
`(idx, ok)` otherwise.  The `Bool` is `true` iff no error is returned. -/
def getLastAddressIndex (env : Env) (branch : Nat) : Nat × Bool :=
  if branch = InternalBranch ∨ branch = ExternalBranch then
    if env.lastIdxOk branch then (env.lastIdx branch, true) else (0, false)
  else (0, false)

/-- Modelled from the spec: `Manager.GetAddress` — derive the address at a
given (branch, index), failing per the oracle. -/
def managerGetAddress (env : Env) (branch idx : Nat) : Option Addr :=
  if env.getAddressOk branch idx then some (env.addrOf branch idx) else none

/-- Modelled from the spec: `Manager.NextInternal/ExternalAddresses` — derive
`count` fresh addresses starting at the manager's next index for the branch
and advance that index; on failure the manager is unchanged. -/
def nextAddresses (env : Env) (m : MgrState) (branch count : Nat) :
    Option (List Addr) × MgrState :=
  if env.nextAddrsOk branch (m.nextIdx branch) then
    (some ((List.range count).map (fun i => env.addrOf branch (m.nextIdx branch + i))),
     { m with nextIdx := fun b => if b = branch then m.nextIdx b + count else m.nextIdx b })
  else (none, m)

/-- Modelled from the spec: `Manager.StoreNextToUseAddresses` — persist the
checkpoint pair; a `nil` side is a sentinel leaving that side unchanged.
The `Bool` is `true` iff the durable write succeeded. -/
def StoreNextToUseAddresses (env : Env) (m : MgrState) (extA intA : Option Addr) :
    Bool × MgrState :=
  if env.storeOk then
    (true, { m with
      storedExt := match extA with | some a => some a | none => m.storedExt,
      storedInt := match intA with | some a => some a | none => m.storedInt })
  else (false, m)

/-- The replenishment trigger of `GetNewAddress`:
`a.cursor == len(a.addresses)-1 || len(a.addresses) == 0`, with the Go `int`
arithmetic carried out in `Int`. -/
abbrev needRep (s : PoolState) : Prop :=
  s.cursor = (s.addresses.length : Int) - 1 ∨ s.addresses.length = 0

/-- Tail of `GetNewAddress` after the replenishment step: read the address at
`cursor` (a Go out-of-range panic is rendered as an error result), advance
`cursor` and `index`, then notify the chain watcher; a notification failure
returns an error but keeps the advanced state. -/
def finishGet (env : Env) (s : PoolState) (m : MgrState) :
    Option Addr × PoolState × MgrState :=
  match s.addresses[s.cursor.toNat]? with
  | none => (none, s, m)
  | some a =>
      let s' := { s with cursor := s.cursor + 1, index := (s.index + 1) % u32 }
      if env.notifyOk a then (some a, s', m) else (none, s', m)

/-- `GetNewAddress`: fail if not started; replenish with `addressPoolBuffer`
fresh addresses when the trigger holds (erroring on an unknown branch or a
failed derivation, with the pool unchanged); then hand out the address at
`cursor`. -/
def GetNewAddress (env : Env) (s : PoolState) (m : MgrState) :
    Option Addr × PoolState × MgrState :=
  if s.started = false then (none, s, m)
  else if needRep s then
    if s.branch = InternalBranch ∨ s.branch = ExternalBranch then
      match nextAddresses env m s.branch addressPoolBuffer with
      | (none, m') => (none, s, m')
      | (some addrs, m') => finishGet env { s with addresses := s.addresses ++ addrs } m'
    else (none, s, m)
  else finishGet env s m

/-- `BatchFinish`: if every buffered address was consumed, clear the window;
otherwise look up the address at `index+1`, persist it as the branch's
next-to-use checkpoint (failures of the lookup or the store are only
logged — on a failed lookup the stored `nil` is the no-update sentinel) and
drop the consumed prefix of the window.  There is no error result. -/
def BatchFinish (env : Env) (s : PoolState) (m : MgrState) : PoolState × MgrState :=
  if (s.addresses.length : Int) ≤ s.cursor then
    ({ s with addresses := [], cursor := 0 }, m)
  else
    let addrOpt := managerGetAddress env s.branch ((s.index + 1) % u32)
    let m' :=
      if s.branch = ExternalBranch then (StoreNextToUseAddresses env m addrOpt none).2
      else if s.branch = InternalBranch then (StoreNextToUseAddresses env m none addrOpt).2
      else m
    ({ s with addresses := s.addresses.drop s.cursor.toNat, cursor := 0 }, m')

/-- `BatchRollback`: `a.index -= uint32(a.cursor); a.cursor = 0`, with the
`uint32` subtraction carried out mod `2^32`. -/
def BatchRollback (s : PoolState) : PoolState :=
  { s with index := (((s.index : Int) - s.cursor) % (u32 : Int)).toNat, cursor := 0 }

/-- The backward walk of `initialize`.  The Go loop counts `traversed`
upward until `addressPoolBuffer`; `remaining = addressPoolBuffer - traversed`
counts the same bound downward so the recursion is structural.  The `Bool`
is `false` when a `GetAddress` or on-chain lookup fails; the partially
accumulated window is returned either way, as in the source, where the
prepends into `a.addresses` before the failing step persist. -/
def initLoop (env : Env) (branch : Nat) (lastSaved : Option Addr) :
    Nat → Nat → List Addr → Bool × Nat × List Addr
  | actualLastIndex, 0, acc => (true, actualLastIndex, acc)
  | actualLastIndex, r + 1, acc =>
    if actualLastIndex = 0 then (true, actualLastIndex, acc)
    else
      match managerGetAddress env branch actualLastIndex with
      | none => (false, actualLastIndex, acc)
      | some addr =>
        if env.addressReuse = false then
          if lastSaved = some addr then (true, actualLastIndex, addr :: acc)
          else initLoop env branch lastSaved (actualLastIndex - 1) r (addr :: acc)
        else
          if env.existsOk addr = false then (false, actualLastIndex, acc)
          else if env.existsOnChain addr then (true, actualLastIndex, acc)
          else initLoop env branch lastSaved (actualLastIndex - 1) r (addr :: acc)

/-- `initialize`: a no-op on a started pool; otherwise reset the window,
install the mutex, record the branch, read the persisted next-to-use
checkpoint, and either take the fresh-wallet shortcut (`lastIndex == 0` with
no lookup error) or run the bounded backward walk.  The `Bool` is `true` iff
no error is returned; on an error the fields mutated so far keep their new
values, as in the source. -/
def initPool (env : Env) (branch : Nat) (s : PoolState) (m : MgrState) :
    Bool × PoolState :=
  if s.started then (true, s)
  else
    let s0 := { s with addresses := [], mutexSet := true, branch := branch }
    if env.nextToUseOk = false then (false, s0)
    else if branch = ExternalBranch ∨ branch = InternalBranch then
      let lastSaved := if branch = ExternalBranch then m.storedExt else m.storedInt
      let li := getLastAddressIndex env branch
      if li.1 = 0 ∧ li.2 = true then
        (true, { s0 with index := 0, cursor := 0, started := true })
      else
        match initLoop env branch lastSaved li.1 addressPoolBuffer [] with
        | (true, actualLastIndex, addrs) =>
            (true, { s0 with
                      addresses := addrs
                      index := actualLastIndex
                      cursor := 0
                      started := true })
        | (false, _, addrs) => (false, { s0 with addresses := addrs })
    else (false, s0)

/-- Lock events emitted by `CloseAddressPools`, tagged by branch. -/
inductive LockEvent where
  | lock : Nat → LockEvent
  | unlock : Nat → LockEvent
deriving DecidableEq, Repr

/-- The wallet as the pool-pair coordinator: its two pool pointers (`none`
renders a nil pointer) and the shared manager state. -/
structure WalletState where
  externalPool : Option PoolState
  internalPool : Option PoolState
  mgr : MgrState

/-- `CloseAddressPools`: bail out unless both pools exist, are started and
have their mutex installed; then lock internal, lock external, allocate one
address from the external pool and one from the internal pool, store the
pair as the joint next-to-use checkpoint, and (by the deferred unlocks, in
LIFO order) unlock external then internal.  Every error is only logged; a
failed allocation returns early with the states mutated so far kept. -/
def CloseAddressPools (env : Env) (w : WalletState) : WalletState × List LockEvent :=
  match w.internalPool, w.externalPool with
  | none, _ => (w, [])
  | some _, none => (w, [])
  | some ip, some ep =>
    if ip.started = false ∨ ep.started = false then (w, [])
    else if ip.mutexSet = false then (w, [])
    else if ep.mutexSet = false then (w, [])
    else
      let lockTrace := [LockEvent.lock InternalBranch, LockEvent.lock ExternalBranch]
      let unlockTrace := [LockEvent.unlock ExternalBranch, LockEvent.unlock InternalBranch]
      match GetNewAddress env ep w.mgr with
      | (none, ep', m') =>
          ({ w with externalPool := some ep', mgr := m' }, lockTrace ++ unlockTrace)
      | (some nextExtAddr, ep', m') =>
        match GetNewAddress env ip m' with
        | (none, ip', m2) =>
            ({ w with externalPool := some ep', internalPool := some ip', mgr := m2 },
             lockTrace ++ unlockTrace)
        | (some nextIntAddr, ip', m2) =>
            let st := StoreNextToUseAddresses env m2 (some nextExtAddr) (some nextIntAddr)
            ({ w with externalPool := some ep', internalPool := some ip', mgr := st.2 },
             lockTrace ++ unlockTrace)

/-- A batch: `n` consecutive `GetNewAddress` calls.  The first component is
`some` of the returned addresses when every call succeeded, `none` as soon
as one fails (the state mutations up to the failure are kept). -/
def allocN (env : Env) : Nat → PoolState × MgrState →
    Option (List Addr) × PoolState × MgrState
  | 0, sm => (some [], sm)
  | n + 1, sm =>
    match GetNewAddress env sm.1 sm.2 with
    | (none, s', m') => (none, s', m')
    | (some a, s', m') =>
      match allocN env n (s', m') with
      | (none, sm') => (none, sm')
      | (some as, sm') => (some (a :: as), sm')

/-- The pool operations a caller can run after startup. -/
inductive PoolOp where
  | get | finish | rollback
deriving DecidableEq, Repr

/-- The addresses successfully handed out along a sequence of operations. -/
def outputs (env : Env) : List PoolOp → PoolState × MgrState → List Addr
  | [], _ => []
  | PoolOp.get :: ops, sm =>
    match GetNewAddress env sm.1 sm.2 with
    | (some a, s', m') => a :: outputs env ops (s', m')
    | (none, s', m') => outputs env ops (s', m')
  | PoolOp.finish :: ops, sm => outputs env ops (BatchFinish env sm.1 sm.2)
  | PoolOp.rollback :: ops, sm => outputs env ops (BatchRollback sm.1, sm.2)

/-- Pool states reachable from construction through the pool operations,
under arbitrary environments and manager states. -/
inductive ReachablePool : PoolState → Prop
  | new : ReachablePool NewAddressPool
  | init (env : Env) (branch : Nat) (m : MgrState) {s : PoolState} :
      ReachablePool s → ReachablePool (initPool env branch s m).2
  | get (env : Env) (m : MgrState) {s : PoolState} :
      ReachablePool s → ReachablePool (GetNewAddress env s m).2.1
  | finish (env : Env) (m : MgrState) {s : PoolState} :
      ReachablePool s → ReachablePool (BatchFinish env s m).1
  | rollback {s : PoolState} : ReachablePool s → ReachablePool (BatchRollback s)

/-- First derivation index of the pool's window: the manager's next index
minus the window length (the window is the contiguous run just below the
manager's derivation point). -/
def winStart (s : PoolState) (m : MgrState) : Nat :=
  m.nextIdx s.branch - s.addresses.length

/-- Coupling between a pool and the Derivation Source: the cursor is in
bounds and the window is exactly the contiguous block of derived addresses
ending right before the manager's next derivation index. -/
def Good (env : Env) (s : PoolState) (m : MgrState) : Prop :=
  0 ≤ s.cursor ∧ s.cursor ≤ (s.addresses.length : Int) ∧
  s.addresses.length ≤ m.nextIdx s.branch ∧
  s.addresses =
    (List.range' (m.nextIdx s.branch - s.addresses.length) s.addresses.length).map
      (env.addrOf s.branch)

theorem finishGet_some_spec {env : Env} {s : PoolState} {m : MgrState} {a : Addr}
    (h : (finishGet env s m).1 = some a) :
    env.notifyOk a = true ∧ s.addresses[s.cursor.toNat]? = some a ∧
    finishGet env s m =
      (some a, { s with cursor := s.cursor + 1, index := (s.index + 1) % u32 }, m) := by
  unfold finishGet at h ⊢
  split at h
  · simp at h
  · next b hI =>
    by_cases hn : env.notifyOk b
    · simp only [if_pos hn] at h ⊢
      obtain rfl : b = a := by simpa using h
      exact ⟨hn, hI, rfl⟩
    · simp only [if_neg hn] at h
      simp at h

theorem finishGet_state_cases (env : Env) (s : PoolState) (m : MgrState) :
    (finishGet env s m).2 = (s, m) ∨
    ∃ a, s.addresses[s.cursor.toNat]? = some a ∧
      (finishGet env s m).2 =
        ({ s with cursor := s.cursor + 1, index := (s.index + 1) % u32 }, m) := by
  unfold finishGet
  split
  · exact Or.inl rfl
  · next b hI =>
    refine Or.inr ⟨b, hI, ?_⟩
    by_cases hn : env.notifyOk b
    · simp only [if_pos hn]
    · simp only [if_neg hn]

theorem nextAddresses_some {env : Env} {m : MgrState} {branch count : Nat}
    {addrs : List Addr} {m' : MgrState}
    (h : nextAddresses env m branch count = (some addrs, m')) :
    addrs = (List.range count).map (fun i => env.addrOf branch (m.nextIdx branch + i)) ∧
    m' = { m with nextIdx := fun b => if b = branch then m.nextIdx b + count
                                      else m.nextIdx b } := by
  unfold nextAddresses at h
  by_cases hk : env.nextAddrsOk branch (m.nextIdx branch)
  · rw [if_pos hk] at h
    cases h
    exact ⟨rfl, rfl⟩
  · rw [if_neg hk] at h
    cases h

/-- Full characterization of a successful `GetNewAddress` call: the pool was
started, notification succeeded, the window was extended by `ext` (the exact
replenishment batch when the trigger held, nothing otherwise), the returned
address sits at the old cursor in the extended window, and cursor and index
each advanced by one. -/
theorem get_some_spec {env : Env} {s : PoolState} {m : MgrState} {a : Addr}
    (h : (GetNewAddress env s m).1 = some a) :
    s.started = true ∧ env.notifyOk a = true ∧
    ∃ ext : List Addr,
      (s.addresses ++ ext)[s.cursor.toNat]? = some a ∧
      (GetNewAddress env s m).2.1 =
        { s with addresses := s.addresses ++ ext,
                 cursor := s.cursor + 1, index := (s.index + 1) % u32 } ∧
      (needRep s →
        ext = (List.range addressPoolBuffer).map
          (fun i => env.addrOf s.branch (m.nextIdx s.branch + i)) ∧
        (GetNewAddress env s m).2.2 =
          { m with nextIdx := fun b => if b = s.branch
              then m.nextIdx b + addressPoolBuffer else m.nextIdx b }) ∧
      (¬ needRep s → ext = [] ∧ (GetNewAddress env s m).2.2 = m) := by
  by_cases hst : s.started = false
  · unfold GetNewAddress at h
    rw [if_pos hst] at h
    exact absurd h (by simp)
  · have hst' : s.started = true := by revert hst; cases s.started <;> simp
    by_cases hrep : needRep s
    · by_cases hbr : s.branch = InternalBranch ∨ s.branch = ExternalBranch
      · unfold GetNewAddress at h ⊢
        rw [if_neg hst, if_pos hrep, if_pos hbr] at h ⊢
        split at h
        · next m' hN => simp at h
        · next addrs m' hN =>
          obtain ⟨hfn, hfidx, hfeq⟩ := finishGet_some_spec h
          obtain ⟨haddrs, hm'⟩ := nextAddresses_some hN
          refine ⟨hst', hfn, addrs, hfidx, ?_, ?_, fun hc => absurd hrep hc⟩
          · rw [hfeq]
          · intro _
            refine ⟨haddrs, ?_⟩
            rw [hfeq]
            simpa using hm'
      · unfold GetNewAddress at h
        rw [if_neg hst, if_pos hrep, if_neg hbr] at h
        exact absurd h (by simp)
    · unfold GetNewAddress at h ⊢
      rw [if_neg hst, if_neg hrep] at h ⊢
      obtain ⟨hfn, hfidx, hfeq⟩ := finishGet_some_spec h
      refine ⟨hst', hfn, [], by simpa using hfidx, ?_, fun hc => absurd hc hrep, ?_⟩
      · rw [hfeq]; simp
      · intro _
        refine ⟨rfl, ?_⟩
        rw [hfeq]

/-- A successful `GetNewAddress` advances cursor and index by exactly one and
preserves the other control fields. -/
theorem get_some_adv {env : Env} {s : PoolState} {m : MgrState} {a : Addr}
    (h : (GetNewAddress env s m).1 = some a) :
    (GetNewAddress env s m).2.1.cursor = s.cursor + 1 ∧
    (GetNewAddress env s m).2.1.index = (s.index + 1) % u32 ∧
    (GetNewAddress env s m).2.1.started = s.started ∧
    (GetNewAddress env s m).2.1.branch = s.branch ∧
    env.notifyOk a = true ∧
    ∃ ext, (GetNewAddress env s m).2.1.addresses = s.addresses ++ ext ∧
      (s.addresses ++ ext)[s.cursor.toNat]? = some a := by
  obtain ⟨-, hn, ext, hidx, heq, -, -⟩ := get_some_spec h
  rw [heq]
  exact ⟨rfl, rfl, rfl, rfl, hn, ext, rfl, hidx⟩

/-- After a successful `GetNewAddress` from a state with the cursor in
bounds, the new cursor is strictly below the new window length. -/
theorem get_some_cursor_lt {env : Env} {s : PoolState} {m : MgrState} {a : Addr}
    (h0 : 0 ≤ s.cursor) (hle : s.cursor ≤ (s.addresses.length : Int))
    (h : (GetNewAddress env s m).1 = some a) :
    (GetNewAddress env s m).2.1.cursor <
      ((GetNewAddress env s m).2.1.addresses.length : Int) := by
  obtain ⟨-, -, ext, hidx, heq, hrep, hnrep⟩ := get_some_spec h
  have hlt : s.cursor.toNat < s.addresses.length + ext.length := by
    obtain ⟨hl, -⟩ := List.getElem?_eq_some.mp hidx
    simpa using hl
  rw [heq]
  simp only [List.length_append]
  by_cases hr : needRep s
  · obtain ⟨hext, -⟩ := hrep hr
    have hextlen : ext.length = addressPoolBuffer := by rw [hext]; simp
    have hbuf : addressPoolBuffer = 20 := rfl
    rcases hr with hr | hr <;> omega
  · obtain ⟨hext, -⟩ := hnrep hr
    have hextlen : ext.length = 0 := by rw [hext]; rfl
    have hne : ¬(s.cursor = (s.addresses.length : Int) - 1 ∨ s.addresses.length = 0) := hr
    push_neg at hne
    obtain ⟨hne1, hne2⟩ := hne
    omega

/-- `GetNewAddress` either extends the window without advancing the cursor
(covering the unchanged-pool error paths, with `ext = []`) or — successfully
or on a failed notification — extends the window and advances cursor and
index; in the latter case the pool was started and the old cursor indexes
into the extended window. -/
theorem get_state_cases (env : Env) (s : PoolState) (m : MgrState) :
    (∃ ext : List Addr,
      (GetNewAddress env s m).2.1 = { s with addresses := s.addresses ++ ext }) ∨
    ∃ ext : List Addr, s.started = true ∧
      s.cursor.toNat < (s.addresses ++ ext).length ∧
      (GetNewAddress env s m).2.1 =
        { s with addresses := s.addresses ++ ext,
                 cursor := s.cursor + 1, index := (s.index + 1) % u32 } := by
  have hid : ∀ ext : List Addr, ext = [] →
      ({ s with addresses := s.addresses ++ ext } : PoolState) = s := by
    intro ext hext; subst hext; simp
  by_cases hst : s.started = false
  · unfold GetNewAddress
    rw [if_pos hst]
    exact Or.inl ⟨[], by rw [hid [] rfl]⟩
  · have hst' : s.started = true := by revert hst; cases s.started <;> simp
    by_cases hrep : needRep s
    · by_cases hbr : s.branch = InternalBranch ∨ s.branch = ExternalBranch
      · unfold GetNewAddress
        rw [if_neg hst, if_pos hrep, if_pos hbr]
        split
        · next m' hN => exact Or.inl ⟨[], by rw [hid [] rfl]⟩
        · next addrs m' hN =>
          rcases finishGet_state_cases env { s with addresses := s.addresses ++ addrs } m' with
            hs | ⟨b, hb, hs⟩
          · left
            refine ⟨addrs, ?_⟩
            have h1 : (finishGet env { s with addresses := s.addresses ++ addrs } m').2.1 =
                { s with addresses := s.addresses ++ addrs } := by rw [hs]
            exact h1
          · right
            refine ⟨addrs, hst', ?_, ?_⟩
            · obtain ⟨hl, -⟩ := List.getElem?_eq_some.mp hb
              simpa using hl
            · have h1 : (finishGet env { s with addresses := s.addresses ++ addrs } m').2.1 =
                { s with addresses := s.addresses ++ addrs,
                         cursor := s.cursor + 1, index := (s.index + 1) % u32 } := by
                rw [hs]
              exact h1
      · unfold GetNewAddress
        rw [if_neg hst, if_pos hrep, if_neg hbr]
        exact Or.inl ⟨[], by rw [hid [] rfl]⟩
    · unfold GetNewAddress
      rw [if_neg hst, if_neg hrep]
      rcases finishGet_state_cases env s m with hs | ⟨b, hb, hs⟩
      · left
        refine ⟨[], ?_⟩
        have h1 : (finishGet env s m).2.1 = s := by rw [hs]
        rw [h1, hid [] rfl]
      · right
        refine ⟨[], hst', ?_, ?_⟩
        · obtain ⟨hl, -⟩ := List.getElem?_eq_some.mp hb
          simpa using hl
        · have h1 : (finishGet env s m).2.1 =
            { s with cursor := s.cursor + 1, index := (s.index + 1) % u32 } := by rw [hs]
          rw [h1]
          simp

theorem batchFinish_cursor_zero (env : Env) (s : PoolState) (m : MgrState) :
    (BatchFinish env s m).1.cursor = 0 := by
  unfold BatchFinish
  split <;> rfl

/-! ### Concrete fixtures used by the witnesses -/

/-- An all-succeeding environment with identity derivation. -/
def envW : Env :=
  { addrOf := fun _ i => i
    getAddressOk := fun _ _ => true
    nextAddrsOk := fun _ _ => true
    notifyOk := fun _ => true
    storeOk := true
    addressReuse := false
    existsOnChain := fun _ => false
    existsOk := fun _ => true
    lastIdx := fun _ => 0
    lastIdxOk := fun _ => true
    nextToUseOk := true }

/-- A manager that has derived nothing and stored no checkpoint. -/
def mgrW : MgrState := { nextIdx := fun _ => 0, storedExt := none, storedInt := none }

/-- A started external-branch pool with an empty window. -/
def poolW : PoolState :=
  { addresses := [], cursor := 0, branch := 0, index := 0,
    started := true, mutexSet := true }

/-! ### C5 -/

/-- C5: `BatchFinish` never reports an error to its caller: whatever the
outcomes of the checkpoint lookup and the durable store, the in-memory pool
is advanced exactly as on success — the consumed addresses `addresses[0..cursor)`
are dropped and the cursor is reset to `0` — and the already-returned
addresses are not rolled back (`index` and `started` are unchanged); a
failed store leaves the manager untouched. -/
theorem c5_commit_failure_nonfatal (env : Env) (s : PoolState) (m : MgrState)
    (h : 0 ≤ s.cursor) :
    (BatchFinish env s m).1.addresses = s.addresses.drop s.cursor.toNat ∧
    (BatchFinish env s m).1.cursor = 0 ∧
    (BatchFinish env s m).1.index = s.index ∧
    (BatchFinish env s m).1.started = s.started ∧
    (env.storeOk = false → (BatchFinish env s m).2 = m) := by
  unfold BatchFinish
  by_cases hc : (s.addresses.length : Int) ≤ s.cursor
  · rw [if_pos hc]
    refine ⟨?_, rfl, rfl, rfl, fun _ => rfl⟩
    have hlen : s.addresses.length ≤ s.cursor.toNat := by omega
    simp [List.drop_eq_nil_of_le hlen]
  · rw [if_neg hc]
    refine ⟨rfl, rfl, rfl, rfl, fun hst => ?_⟩
    simp [StoreNextToUseAddresses, hst]

def envC5 : Env := { envW with storeOk := false, getAddressOk := fun _ _ => false }

def poolC5 : PoolState := { poolW with addresses := [5, 6, 7], cursor := 1 }

/-- Witness for C5: a pool mid-batch under an environment whose lookup and
store both fail. -/
theorem c5_commit_failure_nonfatal_witness :
    0 ≤ poolC5.cursor ∧
    ((BatchFinish envC5 poolC5 mgrW).1.addresses =
        poolC5.addresses.drop poolC5.cursor.toNat ∧
      (BatchFinish envC5 poolC5 mgrW).1.cursor = 0 ∧
      (BatchFinish envC5 poolC5 mgrW).1.index = poolC5.index ∧
      (BatchFinish envC5 poolC5 mgrW).1.started = poolC5.started ∧
      (envC5.storeOk = false → (BatchFinish envC5 poolC5 mgrW).2 = mgrW)) :=
  ⟨by decide, c5_commit_failure_nonfatal envC5 poolC5 mgrW (by decide)⟩

/-! ### C3 -/

/-- C3: in a successful `GetNewAddress` call on a started pool,
replenishment occurs exactly when `cursor == len(addresses)-1` or
`len(addresses) == 0` at entry; when it occurs it appends exactly
`addressPoolBuffer` (20) newly derived addresses, never fewer, and otherwise
the window is unchanged; and when the trigger holds on a known branch but
the derivation call fails, the call errors with the pool unchanged. -/
theorem c3_replenish_exact (env : Env) (s : PoolState) (m : MgrState)
    (hstart : s.started = true) :
    (∀ a, (GetNewAddress env s m).1 = some a →
      (needRep s →
        (GetNewAddress env s m).2.1.addresses =
          s.addresses ++ (List.range addressPoolBuffer).map
            (fun i => env.addrOf s.branch (m.nextIdx s.branch + i)) ∧
        (GetNewAddress env s m).2.1.addresses.length =
          s.addresses.length + addressPoolBuffer) ∧
      (¬ needRep s → (GetNewAddress env s m).2.1.addresses = s.addresses)) ∧
    (needRep s → (s.branch = InternalBranch ∨ s.branch = ExternalBranch) →
      env.nextAddrsOk s.branch (m.nextIdx s.branch) = false →
      (GetNewAddress env s m).1 = none ∧ (GetNewAddress env s m).2.1 = s) := by
  constructor
  · intro a ha
    obtain ⟨-, -, ext, -, heq, hrep, hnrep⟩ := get_some_spec ha
    constructor
    · intro hr
      obtain ⟨hext, -⟩ := hrep hr
      rw [heq, hext]
      constructor
      · rfl
      · simp
    · intro hr
      obtain ⟨hext, -⟩ := hnrep hr
      rw [heq, hext]
      simp
  · intro hr hbr hfail
    unfold GetNewAddress
    rw [if_neg (by simp [hstart]), if_pos hr, if_pos hbr]
    unfold nextAddresses
    rw [if_neg (by simp [hfail])]
    exact ⟨rfl, rfl⟩

/-- Witness for C3: the first allocation from the started empty pool
triggers replenishment and appends exactly the 20 addresses derived at
indices 0–19. -/
theorem c3_replenish_exact_witness :
    poolW.started = true ∧
    ((GetNewAddress envW poolW mgrW).1 = some 0 → needRep poolW →
      (GetNewAddress envW poolW mgrW).2.1.addresses =
        poolW.addresses ++ (List.range addressPoolBuffer).map
          (fun i => envW.addrOf poolW.branch (mgrW.nextIdx poolW.branch + i)) ∧
      (GetNewAddress envW poolW mgrW).2.1.addresses.length =
        poolW.addresses.length + addressPoolBuffer) :=
  ⟨rfl, fun h hr => ((c3_replenish_exact envW poolW mgrW rfl).1 0 h).1 hr⟩

/-! ### C9 -/

/-- The window of a `GetNewAddress` call after its replenishment step. -/
def replenishedWindow (env : Env) (s : PoolState) (m : MgrState) : List Addr :=
  if needRep s then
    s.addresses ++ (List.range addressPoolBuffer).map
      (fun i => env.addrOf s.branch (m.nextIdx s.branch + i))
  else s.addresses

theorem finishGet_eq_of_idx {env : Env} {s : PoolState} {m : MgrState} {a : Addr}
    (hI : s.addresses[s.cursor.toNat]? = some a) :
    finishGet env s m =
      ((if env.notifyOk a then some a else none),
       { s with cursor := s.cursor + 1, index := (s.index + 1) % u32 }, m) := by
  unfold finishGet
  rw [hI]
  by_cases hn : env.notifyOk a
  · simp [hn]
  · simp [hn]

/-- On a started pool with a known branch, when the (possible) replenishment
succeeds and the cursor indexes into the resulting window, `GetNewAddress`
reaches the notification step: the result is decided by `notifyOk` alone,
and the pool is advanced either way. -/
theorem get_notify_path (env : Env) (s : PoolState) (m : MgrState) (a : Addr)
    (hstart : s.started = true)
    (hbr : s.branch = InternalBranch ∨ s.branch = ExternalBranch)
    (hok : needRep s → env.nextAddrsOk s.branch (m.nextIdx s.branch) = true)
    (hidx : (replenishedWindow env s m)[s.cursor.toNat]? = some a) :
    (GetNewAddress env s m).1 = (if env.notifyOk a then some a else none) ∧
    (GetNewAddress env s m).2.1 =
      { s with addresses := replenishedWindow env s m,
               cursor := s.cursor + 1, index := (s.index + 1) % u32 } := by
  have hns : ¬ s.started = false := by simp [hstart]
  have hI : ({ s with addresses := replenishedWindow env s m } : PoolState).addresses[
      ({ s with addresses := replenishedWindow env s m } : PoolState).cursor.toNat]? =
      some a := hidx
  by_cases hrep : needRep s
  · have step : GetNewAddress env s m =
        finishGet env { s with addresses := replenishedWindow env s m }
          { m with nextIdx := fun b => if b = s.branch
              then m.nextIdx b + addressPoolBuffer else m.nextIdx b } := by
      unfold GetNewAddress
      rw [if_neg hns, if_pos hrep, if_pos hbr]
      unfold nextAddresses
      rw [if_pos (by simp [hok hrep])]
      unfold replenishedWindow
      rw [if_pos hrep]
    rw [step, finishGet_eq_of_idx hI]
    exact ⟨rfl, rfl⟩
  · have step : GetNewAddress env s m =
        finishGet env { s with addresses := replenishedWindow env s m } m := by
      unfold GetNewAddress
      rw [if_neg hns, if_neg hrep]
      unfold replenishedWindow
      rw [if_neg hrep]
    rw [step, finishGet_eq_of_idx hI]
    exact ⟨rfl, rfl⟩

/-- C9: if the watch notification fails inside `GetNewAddress` on a started
pool, the call errors, yet `cursor` and `index` have already advanced by one
and any replenished addresses remain in the window — the failure is not
atomic and only a rollback undoes the advancement. -/
theorem c9_notify_failure_nonatomic (env : Env) (s : PoolState) (m : MgrState) (a : Addr)
    (hstart : s.started = true)
    (hbr : s.branch = InternalBranch ∨ s.branch = ExternalBranch)
    (hok : needRep s → env.nextAddrsOk s.branch (m.nextIdx s.branch) = true)
    (hidx : (replenishedWindow env s m)[s.cursor.toNat]? = some a)
    (hnot : env.notifyOk a = false) :
    (GetNewAddress env s m).1 = none ∧
    (GetNewAddress env s m).2.1.cursor = s.cursor + 1 ∧
    (GetNewAddress env s m).2.1.index = (s.index + 1) % u32 ∧
    (GetNewAddress env s m).2.1.addresses = replenishedWindow env s m := by
  obtain ⟨h1, h2⟩ := get_notify_path env s m a hstart hbr hok hidx
  rw [h2]
  refine ⟨?_, rfl, rfl, rfl⟩
  rw [h1, if_neg (by simp [hnot])]

def envC9 : Env := { envW with notifyOk := fun _ => false }

/-- Witness for C9: the first allocation on the empty started pool under an
environment whose notification sink always fails. -/
theorem c9_notify_failure_nonatomic_witness :
    poolW.started = true ∧
    (replenishedWindow envC9 poolW mgrW)[poolW.cursor.toNat]? = some 0 ∧
    envC9.notifyOk 0 = false ∧
    ((GetNewAddress envC9 poolW mgrW).1 = none ∧
     (GetNewAddress envC9 poolW mgrW).2.1.cursor = poolW.cursor + 1 ∧
     (GetNewAddress envC9 poolW mgrW).2.1.index = (poolW.index + 1) % u32 ∧
     (GetNewAddress envC9 poolW mgrW).2.1.addresses = replenishedWindow envC9 poolW mgrW) :=
  ⟨rfl, by decide, rfl,
   c9_notify_failure_nonatomic envC9 poolW mgrW 0 rfl (by decide)
     (fun _ => rfl) (by decide) rfl⟩

/-! ### C10 -/

theorem initLoop_zero (env : Env) (branch : Nat) (ls : Option Addr)
    (i : Nat) (acc : List Addr) :
    initLoop env branch ls i 0 acc = (true, i, acc) := rfl

theorem initLoop_succ (env : Env) (branch : Nat) (ls : Option Addr)
    (i r : Nat) (acc : List Addr) :
    initLoop env branch ls i (r + 1) acc =
      if i = 0 then (true, i, acc)
      else
        match managerGetAddress env branch i with
        | none => (false, i, acc)
        | some addr =>
          if env.addressReuse = false then
            if ls = some addr then (true, i, addr :: acc)
            else initLoop env branch ls (i - 1) r (addr :: acc)
          else
            if env.existsOk addr = false then (false, i, acc)
            else if env.existsOnChain addr then (true, i, acc)
            else initLoop env branch ls (i - 1) r (addr :: acc) := rfl

/-- Every address the backward walk ever places in its accumulator comes
from a derivation index of at least 1: the loop never visits index 0. -/
theorem initLoop_mem (env : Env) (branch : Nat) (ls : Option Addr) :
    ∀ (r i : Nat) (acc : List Addr),
      (∀ a ∈ acc, ∃ k, 1 ≤ k ∧ a = env.addrOf branch k) →
      ∀ a ∈ (initLoop env branch ls i r acc).2.2,
        ∃ k, 1 ≤ k ∧ a = env.addrOf branch k := by
  intro r
  induction r with
  | zero =>
    intro i acc hacc a ha
    rw [initLoop_zero] at ha
    exact hacc a ha
  | succ r ih =>
    intro i acc hacc a ha
    rw [initLoop_succ] at ha
    by_cases hi : i = 0
    · rw [if_pos hi] at ha
      exact hacc a ha
    · rw [if_neg hi] at ha
      have hone : 1 ≤ i := Nat.one_le_iff_ne_zero.mpr hi
      unfold managerGetAddress at ha
      by_cases hg : env.getAddressOk branch i
      · rw [if_pos hg] at ha
        simp only at ha
        have hcons : ∀ b ∈ env.addrOf branch i :: acc,
            ∃ k, 1 ≤ k ∧ b = env.addrOf branch k := by
          intro b hb
          rcases List.mem_cons.mp hb with hb | hb
          · exact ⟨i, hone, hb⟩
          · exact hacc b hb
        by_cases hru : env.addressReuse = false
        · rw [if_pos hru] at ha
          by_cases hm : ls = some (env.addrOf branch i)
          · rw [if_pos hm] at ha
            exact hcons a ha
          · rw [if_neg hm] at ha
            exact ih (i - 1) (env.addrOf branch i :: acc) hcons a ha
        · rw [if_neg hru] at ha
          by_cases he : env.existsOk (env.addrOf branch i) = false
          · rw [if_pos he] at ha
            exact hacc a ha
          · rw [if_neg he] at ha
            by_cases hx : env.existsOnChain (env.addrOf branch i)
            · rw [if_pos hx] at ha
              exact hacc a ha
            · rw [if_neg hx] at ha
              exact ih (i - 1) (env.addrOf branch i :: acc) hcons a ha
      · rw [if_neg hg] at ha
        exact hacc a ha

/-- C10: a branch whose highest known managed-address index is 0 is treated
exactly like a fresh branch — `initialize` succeeds with `index = 0`,
`cursor = 0`, an empty window and `started = true` — and the backward walk
never visits derivation index 0, so every window entry of any run of
`initialize` is derived from an index of at least 1. -/
theorem c10_index_zero_fresh (env : Env) (branch : Nat) (s : PoolState) (m : MgrState)
    (hns : s.started = false) :
    ((branch = ExternalBranch ∨ branch = InternalBranch) → env.nextToUseOk = true →
      env.lastIdxOk branch = true → env.lastIdx branch = 0 →
      initPool env branch s m =
        (true, { s with addresses := [], mutexSet := true, branch := branch,
                        index := 0, cursor := 0, started := true })) ∧
    (∀ a ∈ (initPool env branch s m).2.addresses,
      ∃ k, 1 ≤ k ∧ a = env.addrOf branch k) := by
  have hnsp : ¬ s.started := by simp [hns]
  constructor
  · intro hbr hntu hok hzero
    unfold initPool
    rw [if_neg hnsp, if_neg (by simp [hntu]), if_pos hbr]
    have hli : getLastAddressIndex env branch = (0, true) := by
      unfold getLastAddressIndex
      rw [if_pos (Or.symm hbr), if_pos (by simp [hok]), hzero]
    rw [hli]
    rw [if_pos ⟨rfl, rfl⟩]
  · intro a ha
    unfold initPool at ha
    rw [if_neg hnsp] at ha
    by_cases hntu : env.nextToUseOk = false
    · rw [if_pos hntu] at ha
      simp at ha
    · rw [if_neg hntu] at ha
      by_cases hbr : branch = ExternalBranch ∨ branch = InternalBranch
      · rw [if_pos hbr] at ha
        by_cases hf : (getLastAddressIndex env branch).1 = 0 ∧
            (getLastAddressIndex env branch).2 = true
        · rw [if_pos hf] at ha
          simp at ha
        · rw [if_neg hf] at ha
          rcases hL : initLoop env branch
              (if branch = ExternalBranch then m.storedExt else m.storedInt)
              (getLastAddressIndex env branch).1 addressPoolBuffer [] with ⟨ok, idx, addrs⟩
          rw [hL] at ha
          have hmem : ∀ b ∈ (initLoop env branch
              (if branch = ExternalBranch then m.storedExt else m.storedInt)
              (getLastAddressIndex env branch).1 addressPoolBuffer []).2.2,
              ∃ k, 1 ≤ k ∧ b = env.addrOf branch k :=
            initLoop_mem env branch _ addressPoolBuffer _ [] (by intro b hb; simp at hb)
          rw [hL] at hmem
          cases ok
          · simp only at ha
            exact hmem a ha
          · simp only at ha
            exact hmem a ha
      · rw [if_neg hbr] at ha
        simp at ha

/-- Witness for C10: a not-started pool over a branch whose last known
index is 0. -/
theorem c10_index_zero_fresh_witness :
    NewAddressPool.started = false ∧
    (initPool envW ExternalBranch NewAddressPool mgrW =
      (true, { NewAddressPool with
                addresses := []
                mutexSet := true
                branch := ExternalBranch
                index := 0
                cursor := 0
                started := true })) ∧
    (∀ a ∈ (initPool envW ExternalBranch NewAddressPool mgrW).2.addresses,
      ∃ k, 1 ≤ k ∧ a = envW.addrOf ExternalBranch k) :=
  ⟨rfl,
   (c10_index_zero_fresh envW ExternalBranch NewAddressPool mgrW rfl).1
     (Or.inl rfl) rfl rfl rfl,
   (c10_index_zero_fresh envW ExternalBranch NewAddressPool mgrW rfl).2⟩

/-! ### C7 -/

/-- Auxiliary invariant: cursor bounds plus "unstarted pools have cursor 0"
(needed to handle the failure paths of `initialize`, which reset the window
but keep the cursor). -/
def InvP (s : PoolState) : Prop :=
  0 ≤ s.cursor ∧ s.cursor ≤ (s.addresses.length : Int) ∧
  (s.started = false → s.cursor = 0)

theorem initPool_cursor_cases (env : Env) (branch : Nat) (s : PoolState) (m : MgrState) :
    (initPool env branch s m).2 = s ∨
    (initPool env branch s m).2.cursor = 0 ∨
    ((initPool env branch s m).2.cursor = s.cursor ∧ s.started = false ∧
     (initPool env branch s m).2.started = false) := by
  unfold initPool
  by_cases hs : s.started
  · rw [if_pos hs]
    exact Or.inl rfl
  · rw [if_neg hs]
    have hsf : s.started = false := by revert hs; cases s.started <;> simp
    by_cases hn : env.nextToUseOk = false
    · rw [if_pos hn]
      exact Or.inr (Or.inr ⟨rfl, hsf, hsf⟩)
    · rw [if_neg hn]
      by_cases hb : branch = ExternalBranch ∨ branch = InternalBranch
      · rw [if_pos hb]
        by_cases hf : (getLastAddressIndex env branch).1 = 0 ∧
            (getLastAddressIndex env branch).2 = true
        · rw [if_pos hf]
          exact Or.inr (Or.inl rfl)
        · rw [if_neg hf]
          rcases hL : initLoop env branch
              (if branch = ExternalBranch then m.storedExt else m.storedInt)
              (getLastAddressIndex env branch).1 addressPoolBuffer [] with ⟨ok, idx, addrs⟩
          cases ok
          · exact Or.inr (Or.inr ⟨rfl, hsf, hsf⟩)
          · exact Or.inr (Or.inl rfl)
      · rw [if_neg hb]
        exact Or.inr (Or.inr ⟨rfl, hsf, hsf⟩)

theorem batchFinish_started (env : Env) (s : PoolState) (m : MgrState) :
    (BatchFinish env s m).1.started = s.started := by
  unfold BatchFinish
  split <;> rfl

theorem reachable_invP {s : PoolState} (h : ReachablePool s) : InvP s := by
  induction h with
  | new => exact ⟨le_refl 0, by simp [NewAddressPool], fun _ => rfl⟩
  | init env branch m h ih =>
    rcases initPool_cursor_cases env branch _ m with hcase | hcase | ⟨hc, hsf, hsf'⟩
    · rw [hcase]; exact ih
    · exact ⟨by rw [hcase], by rw [hcase]; exact Int.natCast_nonneg _, fun _ => hcase⟩
    · have hc0 : _ = (0 : Int) := ih.2.2 hsf
      rw [hc0] at hc
      exact ⟨by rw [hc], by rw [hc]; exact Int.natCast_nonneg _, fun _ => hc⟩
  | get env m h ih =>
    rcases get_state_cases env _ m with ⟨ext, hcase⟩ | ⟨ext, hstart, hlt, hcase⟩
    · rw [hcase]
      refine ⟨ih.1, ?_, ih.2.2⟩
      have := ih.2.1
      simp only [List.length_append]
      omega
    · rw [hcase]
      refine ⟨?_, ?_, ?_⟩
      · have := ih.1; simp only; omega
      · simp only [List.length_append] at hlt ⊢
        have h1 := ih.1
        omega
      · intro hfalse
        simp only at hfalse
        rw [hstart] at hfalse
        cases hfalse
  | finish env m h ih =>
    refine ⟨?_, ?_, ?_⟩
    · rw [batchFinish_cursor_zero]
    · rw [batchFinish_cursor_zero]; exact Int.natCast_nonneg _
    · intro _; rw [batchFinish_cursor_zero]
  | rollback h ih =>
    exact ⟨le_refl 0, Int.natCast_nonneg _, fun _ => rfl⟩

/-- C7: in every reachable pool state — after construction and closed under
`initialize`, `GetNewAddress`, `BatchFinish` and `BatchRollback` — the
invariant `0 ≤ cursor ≤ len(addresses)` holds. -/
theorem c7_cursor_bounds {s : PoolState} (h : ReachablePool s) :
    0 ≤ s.cursor ∧ s.cursor ≤ (s.addresses.length : Int) :=
  ⟨(reachable_invP h).1, (reachable_invP h).2.1⟩

/-- Witness for C7 at the freshly constructed pool. -/
theorem c7_cursor_bounds_witness :
    0 ≤ NewAddressPool.cursor ∧
    NewAddressPool.cursor ≤ (NewAddressPool.addresses.length : Int) :=
  c7_cursor_bounds ReachablePool.new

/-! ### C8 -/

/-- A started internal-branch pool, mirror of `poolW`. -/
def poolWInt : PoolState := { poolW with branch := 1 }

/-- A wallet with both pools present, started and lock-initialized. -/
def walletW : WalletState :=
  { externalPool := some poolW, internalPool := some poolWInt, mgr := mgrW }

/-- C8 counterexample: on a wallet with two started, lock-initialized pools,
`CloseAddressPools` locks the internal pool first and the external pool
second — not external first as claimed. -/
theorem c8_lock_order_counterexample :
    (CloseAddressPools envW walletW).2 =
      [LockEvent.lock InternalBranch, LockEvent.lock ExternalBranch,
       LockEvent.unlock ExternalBranch, LockEvent.unlock InternalBranch] ∧
    InternalBranch ≠ ExternalBranch := by
  constructor
  · rfl
  · decide

/-- C8 (amended): `CloseAddressPools` acquires the two pool locks in the
fixed order internal first, then external (and releases them in LIFO
order), so it cannot deadlock against any other caller that acquires both
locks in that same fixed order. -/
theorem c8_lock_order_amended (env : Env) (w : WalletState) (ip ep : PoolState)
    (hip : w.internalPool = some ip) (hep : w.externalPool = some ep)
    (his : ip.started = true) (hes : ep.started = true)
    (him : ip.mutexSet = true) (hem : ep.mutexSet = true) :
    (CloseAddressPools env w).2 =
      [LockEvent.lock InternalBranch, LockEvent.lock ExternalBranch,
       LockEvent.unlock ExternalBranch, LockEvent.unlock InternalBranch] := by
  unfold CloseAddressPools
  rw [hip, hep]
  simp only [his, hes, him, hem]
  rcases hg1 : GetNewAddress env ep w.mgr with ⟨r1, ep', m1⟩
  cases r1 with
  | none => rfl
  | some ae =>
    rcases hg2 : GetNewAddress env ip m1 with ⟨r2, ip', m2⟩
    cases r2 with
    | none =>
      simp only [hg2]
      rfl
    | some ai =>
      simp only [hg2]
      rfl

/-- Witness for C8 (amended) at the concrete wallet fixture. -/
theorem c8_lock_order_amended_witness :
    walletW.internalPool = some poolWInt ∧ walletW.externalPool = some poolW ∧
    (CloseAddressPools envW walletW).2 =
      [LockEvent.lock InternalBranch, LockEvent.lock ExternalBranch,
       LockEvent.unlock ExternalBranch, LockEvent.unlock InternalBranch] :=
  ⟨rfl, rfl,
   c8_lock_order_amended envW walletW poolWInt poolW rfl rfl rfl rfl rfl rfl⟩

/-! ### C6 -/

/-- C6: when every underlying call succeeds, `CloseAddressPools` on two
started, lock-initialized pools allocates exactly one address from the
external pool and one from the internal pool — advancing each pool's cursor
and index by one — and persists precisely that pair as the joint
next-to-use checkpoint. -/
theorem c6_close_pools_burns_one_each (env : Env) (w : WalletState)
    (ip ep : PoolState) (ae ai : Addr)
    (hip : w.internalPool = some ip) (hep : w.externalPool = some ep)
    (his : ip.started = true) (hes : ep.started = true)
    (him : ip.mutexSet = true) (hem : ep.mutexSet = true)
    (hstore : env.storeOk = true)
    (hgetE : (GetNewAddress env ep w.mgr).1 = some ae)
    (hgetI : (GetNewAddress env ip (GetNewAddress env ep w.mgr).2.2).1 = some ai) :
    (CloseAddressPools env w).1.externalPool = some (GetNewAddress env ep w.mgr).2.1 ∧
    (CloseAddressPools env w).1.internalPool =
      some (GetNewAddress env ip (GetNewAddress env ep w.mgr).2.2).2.1 ∧
    (GetNewAddress env ep w.mgr).2.1.cursor = ep.cursor + 1 ∧
    (GetNewAddress env ep w.mgr).2.1.index = (ep.index + 1) % u32 ∧
    (GetNewAddress env ip (GetNewAddress env ep w.mgr).2.2).2.1.cursor = ip.cursor + 1 ∧
    (GetNewAddress env ip (GetNewAddress env ep w.mgr).2.2).2.1.index
      = (ip.index + 1) % u32 ∧
    (CloseAddressPools env w).1.mgr.storedExt = some ae ∧
    (CloseAddressPools env w).1.mgr.storedInt = some ai := by
  have hadvE := get_some_adv hgetE
  have hadvI := get_some_adv hgetI
  unfold CloseAddressPools
  rw [hip, hep]
  simp only [his, hes, him, hem]
  rcases hg1 : GetNewAddress env ep w.mgr with ⟨r1, ep1, m1⟩
  rw [hg1] at hgetE hgetI hadvE hadvI
  simp only at hgetE hgetI hadvE hadvI ⊢
  subst hgetE
  rcases hg2 : GetNewAddress env ip m1 with ⟨r2, ip1, m2⟩
  rw [hg2] at hgetI hadvI
  simp only at hgetI hadvI
  subst hgetI
  have hstoreEq : (StoreNextToUseAddresses env m2 (some ae) (some ai)).2 =
      { m2 with storedExt := some ae, storedInt := some ai } := by
    unfold StoreNextToUseAddresses
    rw [if_pos (by simp [hstore])]
  simp only [hg2, hstoreEq]
  exact ⟨rfl, rfl, hadvE.1, hadvE.2.1, hadvI.1, hadvI.2.1, rfl, rfl⟩

def mgrC6 : MgrState := { mgrW with nextIdx := fun b => if b = 1 then 100 else 0 }

def walletC6 : WalletState :=
  { externalPool := some poolW, internalPool := some poolWInt, mgr := mgrC6 }

/-- Witness for C6: closing the concrete wallet burns address 0 from the
external branch and address 100 from the internal branch and persists that
pair. -/
theorem c6_close_pools_burns_one_each_witness :
    (GetNewAddress envW poolW walletC6.mgr).1 = some 0 ∧
    (GetNewAddress envW poolWInt (GetNewAddress envW poolW walletC6.mgr).2.2).1
      = some 100 ∧
    ((CloseAddressPools envW walletC6).1.externalPool
        = some (GetNewAddress envW poolW walletC6.mgr).2.1 ∧
     (CloseAddressPools envW walletC6).1.internalPool
        = some (GetNewAddress envW poolWInt
            (GetNewAddress envW poolW walletC6.mgr).2.2).2.1 ∧
     (GetNewAddress envW poolW walletC6.mgr).2.1.cursor = poolW.cursor + 1 ∧
     (GetNewAddress envW poolW walletC6.mgr).2.1.index = (poolW.index + 1) % u32 ∧
     (GetNewAddress envW poolWInt (GetNewAddress envW poolW walletC6.mgr).2.2).2.1.cursor
        = poolWInt.cursor + 1 ∧
     (GetNewAddress envW poolWInt (GetNewAddress envW poolW walletC6.mgr).2.2).2.1.index
        = (poolWInt.index + 1) % u32 ∧
     (CloseAddressPools envW walletC6).1.mgr.storedExt = some 0 ∧
     (CloseAddressPools envW walletC6).1.mgr.storedInt = some 100) :=
  ⟨by decide, by decide,
   c6_close_pools_burns_one_each envW walletC6 poolWInt poolW 0 100
     rfl rfl rfl rfl rfl rfl rfl (by decide) (by decide)⟩

/-! ### C2 -/

theorem allocN_zero (env : Env) (sm : PoolState × MgrState) :
    allocN env 0 sm = (some [], sm) := rfl

theorem allocN_succ (env : Env) (n : Nat) (sm : PoolState × MgrState) :
    allocN env (n + 1) sm =
      match GetNewAddress env sm.1 sm.2 with
      | (none, s', m') => (none, s', m')
      | (some a, s', m') =>
        match allocN env n (s', m') with
        | (none, sm') => (none, sm')
        | (some as, sm') => (some (a :: as), sm') := rfl

/-- Bookkeeping of a fully successful batch of `n` allocations: `n` addresses
come back, the cursor advances by exactly `n`, the index by exactly `n`
mod `2^32`, the window is only ever extended, and (for a nonempty batch) the
final cursor is strictly inside the final window. -/
theorem allocN_spec (env : Env) :
    ∀ (n : Nat) (s : PoolState) (m : MgrState) (as : List Addr),
      0 ≤ s.cursor → s.cursor ≤ (s.addresses.length : Int) → s.index < u32 →
      (allocN env n (s, m)).1 = some as →
      as.length = n ∧
      (allocN env n (s, m)).2.1.cursor = s.cursor + n ∧
      (allocN env n (s, m)).2.1.index = (s.index + n) % u32 ∧
      (allocN env n (s, m)).2.1.started = s.started ∧
      (allocN env n (s, m)).2.1.branch = s.branch ∧
      (∃ ext, (allocN env n (s, m)).2.1.addresses = s.addresses ++ ext) ∧
      (1 ≤ n → (allocN env n (s, m)).2.1.cursor <
        ((allocN env n (s, m)).2.1.addresses.length : Int)) := by
  intro n
  induction n with
  | zero =>
    intro s m as h0 hle hidx hsome
    rw [allocN_zero] at hsome ⊢
    obtain rfl : as = [] := by simpa using hsome.symm
    refine ⟨rfl, by simp, by simp [Nat.mod_eq_of_lt hidx], rfl, rfl, ⟨[], by simp⟩,
      fun h => absurd h (by omega)⟩
  | succ n ih =>
    intro s m as h0 hle hidx hsome
    rw [allocN_succ] at hsome
    simp only at hsome
    rcases heq1 : GetNewAddress env s m with ⟨r1, s1, m1⟩
    rw [heq1] at hsome
    cases r1 with
    | none => simp at hsome
    | some a =>
      simp only at hsome
      rcases heq2 : allocN env n (s1, m1) with ⟨r2, sm2⟩
      rw [heq2] at hsome
      cases r2 with
      | none => simp at hsome
      | some as' =>
        simp only at hsome
        obtain rfl : as = a :: as' := by simpa using hsome.symm
        have hga : (GetNewAddress env s m).1 = some a := by rw [heq1]
        have hadv := get_some_adv hga
        have hstrict := get_some_cursor_lt h0 hle hga
        rw [heq1] at hadv hstrict
        simp only at hadv hstrict
        obtain ⟨hac, hai, hast, habr, -, ext1, hax, -⟩ := hadv
        have h0' : 0 ≤ s1.cursor := by rw [hac]; omega
        have hle' : s1.cursor ≤ (s1.addresses.length : Int) := le_of_lt hstrict
        have hidx' : s1.index < u32 := by
          rw [hai]
          exact Nat.mod_lt _ (by norm_num [u32])
        have hsome' : (allocN env n (s1, m1)).1 = some as' := by rw [heq2]
        have IH := ih s1 m1 as' h0' hle' hidx' hsome'
        rw [heq2] at IH
        simp only at IH
        obtain ⟨IHlen, IHc, IHi, IHst, IHbr, ⟨ext2, IHa⟩, IHstrict⟩ := IH
        have hval : allocN env (n + 1) (s, m) = (some (a :: as'), sm2) := by
          rw [allocN_succ]
          simp only
          rw [heq1]
          simp only
          rw [heq2]
        rw [hval]
        simp only
        refine ⟨by simp [IHlen], ?_, ?_, ?_, ?_, ?_, ?_⟩
        · rw [IHc, hac]; push_cast; ring
        · rw [IHi, hai, Nat.mod_add_mod]
          exact congrArg (fun x => x % u32) (by omega)
        · rw [IHst, hast]
        · rw [IHbr, habr]
        · exact ⟨ext1 ++ ext2, by rw [IHa, hax, List.append_assoc]⟩
        · intro h1
          cases n with
          | zero =>
            have hsm2 : sm2 = (s1, m1) := by
              have := heq2
              rw [allocN_zero] at this
              exact ((Prod.mk.injEq _ _ _ _).mp this).2.symm
            rw [hsm2]
            exact hstrict
          | succ k => exact IHstrict (by omega)

/-- The head of a successful nonempty batch is the result of the first
`GetNewAddress` call. -/
theorem allocN_first (env : Env) (n : Nat) (s : PoolState) (m : MgrState)
    (as : List Addr) (hn : 1 ≤ n) (hsome : (allocN env n (s, m)).1 = some as) :
    ∃ a, as.head? = some a ∧ (GetNewAddress env s m).1 = some a := by
  cases n with
  | zero => omega
  | succ k =>
    rw [allocN_succ] at hsome
    simp only at hsome
    rcases heq1 : GetNewAddress env s m with ⟨r1, s1, m1⟩
    rw [heq1] at hsome
    cases r1 with
    | none => simp at hsome
    | some a =>
      simp only at hsome
      rcases heq2 : allocN env k (s1, m1) with ⟨r2, sm2⟩
      rw [heq2] at hsome
      cases r2 with
      | none => simp at hsome
      | some as' =>
        simp only at hsome
        obtain rfl : as = a :: as' := by simpa using hsome.symm
        exact ⟨a, rfl, rfl⟩

/-- After a successful batch started at cursor 0, the head of the batch sits
at position 0 of the final window, and its notification succeeded. -/
theorem allocN_head (env : Env) (n : Nat) (s : PoolState) (m : MgrState)
    (as : List Addr) (a₀ : Addr)
    (hle : s.cursor ≤ (s.addresses.length : Int)) (hidx : s.index < u32)
    (hc : s.cursor = 0)
    (hsome : (allocN env n (s, m)).1 = some as)
    (hhead : as.head? = some a₀) :
    (allocN env n (s, m)).2.1.addresses[0]? = some a₀ ∧
    env.notifyOk a₀ = true := by
  cases n with
  | zero =>
    rw [allocN_zero] at hsome
    obtain rfl : as = [] := by simpa using hsome.symm
    simp at hhead
  | succ k =>
    rw [allocN_succ] at hsome
    simp only at hsome
    rcases heq1 : GetNewAddress env s m with ⟨r1, s1, m1⟩
    rw [heq1] at hsome
    cases r1 with
    | none => simp at hsome
    | some a =>
      simp only at hsome
      rcases heq2 : allocN env k (s1, m1) with ⟨r2, sm2⟩
      rw [heq2] at hsome
      cases r2 with
      | none => simp at hsome
      | some as' =>
        simp only at hsome
        obtain rfl : as = a :: as' := by simpa using hsome.symm
        obtain rfl : a₀ = a := by simpa using hhead.symm
        have hga : (GetNewAddress env s m).1 = some a₀ := by rw [heq1]
        obtain ⟨-, hn, ext1, hidx1, heqs, -, -⟩ := get_some_spec hga
        rw [heq1] at heqs
        simp only at heqs
        have hs1a : s1.addresses = s.addresses ++ ext1 := by rw [heqs]
        have hs1c : s1.cursor = s.cursor + 1 := by rw [heqs]
        have hs1i : s1.index = (s.index + 1) % u32 := by rw [heqs]
        have hidx0 : s1.addresses[(0 : Nat)]? = some a₀ := by
          rw [hs1a]
          have : s.cursor.toNat = 0 := by rw [hc]; rfl
          rw [← this]
          exact hidx1
        have h0' : 0 ≤ s1.cursor := by omega
        have hstrict := get_some_cursor_lt (by rw [hc]) hle hga
        rw [heq1] at hstrict
        simp only at hstrict
        have hle' : s1.cursor ≤ (s1.addresses.length : Int) := le_of_lt hstrict
        have hidx' : s1.index < u32 := by
          rw [hs1i]
          exact Nat.mod_lt _ (by norm_num [u32])
        have hsome' : (allocN env k (s1, m1)).1 = some as' := by rw [heq2]
        obtain ⟨-, -, -, -, -, ⟨ext2, hext2⟩, -⟩ :=
          allocN_spec env k s1 m1 as' h0' hle' hidx' hsome'
        rw [heq2] at hext2
        simp only at hext2
        have hval : allocN env (k + 1) (s, m) = (some (a₀ :: as'), sm2) := by
          rw [allocN_succ]
          simp only
          rw [heq1]
          simp only
          rw [heq2]
        rw [hval]
        simp only
        constructor
        · rw [hext2]
          have hlt : 0 < s1.addresses.length := by
            obtain ⟨hl, -⟩ := List.getElem?_eq_some.mp hidx0
            omega
          rw [List.getElem?_append_left hlt]
          exact hidx0
        · exact hn

/-- C2: after `n` successful allocations from a started pool at the start of
a batch (`cursor = 0`) followed by one `BatchRollback`, the index returns to
its pre-batch value (and, absent `uint32` wrap-around, the batch had
advanced it by exactly `n`), the cursor is reset to 0, and the next
`GetNewAddress` call succeeds and returns the same address as the first
call of the rolled-back sequence. -/
theorem c2_rollback_idempotent_retry (env : Env) (s : PoolState) (m : MgrState)
    (n : Nat) (as : List Addr)
    (hstart : s.started = true) (hc : s.cursor = 0) (hidx : s.index < u32)
    (halloc : (allocN env n (s, m)).1 = some as) :
    (BatchRollback (allocN env n (s, m)).2.1).index = s.index ∧
    (BatchRollback (allocN env n (s, m)).2.1).cursor = 0 ∧
    (s.index + n < u32 → (allocN env n (s, m)).2.1.index = s.index + n) ∧
    (∀ a₀, as.head? = some a₀ →
      (GetNewAddress env (BatchRollback (allocN env n (s, m)).2.1)
        (allocN env n (s, m)).2.2).1 = some a₀) := by
  have h0 : 0 ≤ s.cursor := by rw [hc]
  have hle : s.cursor ≤ (s.addresses.length : Int) := by
    rw [hc]; exact Int.natCast_nonneg _
  obtain ⟨hlen, hcur, hi, hst, -, -, hstrict⟩ :=
    allocN_spec env n s m as h0 hle hidx halloc
  refine ⟨?_, rfl, ?_, ?_⟩
  · show ((((allocN env n (s, m)).2.1.index : Int) -
        (allocN env n (s, m)).2.1.cursor) % (u32 : Int)).toNat = s.index
    rw [hcur, hc, hi]
    simp only [u32] at hidx ⊢
    omega
  · intro hnw
    rw [hi]
    exact Nat.mod_eq_of_lt hnw
  · intro a₀ hhead
    have hn1 : 1 ≤ n := by
      cases n with
      | zero =>
        rw [allocN_zero] at halloc
        obtain rfl : as = [] := by simpa using halloc.symm
        simp at hhead
      | succ k => omega
    obtain ⟨hhead0, hnot⟩ := allocN_head env n s m as a₀ hle hidx hc halloc hhead
    have hslt := hstrict hn1
    have hcu : (allocN env n (s, m)).2.1.cursor = (n : Int) := by
      rw [hcur, hc]; ring
    have hlen2 : 2 ≤ (allocN env n (s, m)).2.1.addresses.length := by
      rw [hcu] at hslt
      have : (1 : Int) ≤ (n : Int) := by exact_mod_cast hn1
      omega
    have hnr : ¬ needRep (BatchRollback (allocN env n (s, m)).2.1) := by
      intro hrep
      rcases hrep with hrep | hrep
      · have : (0 : Int) =
            ((BatchRollback (allocN env n (s, m)).2.1).addresses.length : Int) - 1 := hrep
        have hlb : (BatchRollback (allocN env n (s, m)).2.1).addresses.length =
            (allocN env n (s, m)).2.1.addresses.length := rfl
        rw [hlb] at this
        omega
      · have hlb : (BatchRollback (allocN env n (s, m)).2.1).addresses.length =
            (allocN env n (s, m)).2.1.addresses.length := rfl
        rw [hlb] at hrep
        omega
    have hstarted2 : ¬ (BatchRollback (allocN env n (s, m)).2.1).started = false := by
      have : (BatchRollback (allocN env n (s, m)).2.1).started = s.started := hst
      rw [this, hstart]
      simp
    have hI : (BatchRollback (allocN env n (s, m)).2.1).addresses[
        (BatchRollback (allocN env n (s, m)).2.1).cursor.toNat]? = some a₀ := hhead0
    unfold GetNewAddress
    rw [if_neg hstarted2, if_neg hnr, finishGet_eq_of_idx hI]
    simp [hnot]

/-- Witness for C2: two allocations from the fresh started pool, rolled
back; the retry returns address 0 again. -/
theorem c2_rollback_idempotent_retry_witness :
    poolW.started = true ∧ poolW.cursor = 0 ∧ poolW.index < u32 ∧
    (allocN envW 2 (poolW, mgrW)).1 = some [0, 1] ∧
    ((BatchRollback (allocN envW 2 (poolW, mgrW)).2.1).index = poolW.index ∧
     (BatchRollback (allocN envW 2 (poolW, mgrW)).2.1).cursor = 0 ∧
     (poolW.index + 2 < u32 →
       (allocN envW 2 (poolW, mgrW)).2.1.index = poolW.index + 2) ∧
     (∀ a₀, ([0, 1] : List Addr).head? = some a₀ →
       (GetNewAddress envW (BatchRollback (allocN envW 2 (poolW, mgrW)).2.1)
         (allocN envW 2 (poolW, mgrW)).2.2).1 = some a₀)) :=
  ⟨rfl, rfl, by decide, by decide,
   c2_rollback_idempotent_retry envW poolW mgrW 2 [0, 1] rfl rfl (by decide) (by decide)⟩

/-! ### C4 -/

/-- The backward walk in reuse-disabled mode, when the checkpoint address
first matches at index `j` within the fuel bound: it stops there and the
accumulated window is exactly the addresses at indices `j..i` — the matched
index included. -/
theorem initLoop_first_match (env : Env) (branch : Nat) (c : Addr) (j : Nat)
    (hreuse : env.addressReuse = false) (hj : 1 ≤ j)
    (hmatch : env.addrOf branch j = c) :
    ∀ (r i : Nat) (acc : List Addr), j ≤ i → i - j < r →
      (∀ k, j ≤ k → k ≤ i → env.getAddressOk branch k = true) →
      (∀ k, j < k → k ≤ i → env.addrOf branch k ≠ c) →
      initLoop env branch (some c) i r acc =
        (true, j, (List.range' j (i - j + 1)).map (env.addrOf branch) ++ acc) := by
  intro r
  induction r with
  | zero => intro i acc h1 h2 _ _; omega
  | succ r ih =>
    intro i acc hji hir hget hne
    rw [initLoop_succ]
    have hi0 : ¬ i = 0 := by omega
    rw [if_neg hi0]
    have hgi : env.getAddressOk branch i = true := hget i hji (le_refl i)
    unfold managerGetAddress
    rw [if_pos (by simp [hgi])]
    simp only
    rw [if_pos hreuse]
    by_cases hij : i = j
    · subst hij
      rw [if_pos (by rw [hmatch])]
      have h1 : i - i + 1 = 1 := by omega
      rw [h1, List.range'_one]
      simp [hmatch]
    · have hji' : j < i := by omega
      have hneq : ¬ ((some c : Option Addr) = some (env.addrOf branch i)) := by
        intro hcc
        refine hne i hji' (le_refl i) ?_
        injection hcc with hcc
        exact hcc.symm
      rw [if_neg hneq]
      rw [ih (i - 1) (env.addrOf branch i :: acc) (by omega) (by omega)
        (fun k hk1 hk2 => hget k hk1 (by omega))
        (fun k hk1 hk2 => hne k hk1 (by omega))]
      have hn : i - j + 1 = (i - 1 - j + 1) + 1 := by omega
      have hcc : List.range' j (i - j + 1) = List.range' j (i - 1 - j + 1) ++ [i] := by
        rw [hn, List.range'_1_concat]
        have : j + (i - 1 - j + 1) = i := by omega
        rw [this]
      rw [hcc, List.map_append]
      simp

/-- C4 (amended): on a non-fresh, reuse-disabled branch whose persisted
next-to-use checkpoint address first matches the derivation at index `j`
(within the 20-step walk bound below the highest known index `L`),
`initialize` stops the backward walk at that first match and the resulting
window is exactly the addresses at indices `j` through `L` — the matched
address itself included, since the checkpoint stores the next address to
use — with the pool's index set to `j`. -/
theorem c4_checkpoint_walk_amended (env : Env) (branch : Nat) (s : PoolState)
    (m : MgrState) (c : Addr) (j L : Nat)
    (hreuse : env.addressReuse = false)
    (hns : s.started = false)
    (hntu : env.nextToUseOk = true)
    (hbr : branch = ExternalBranch ∨ branch = InternalBranch)
    (hsaved : (if branch = ExternalBranch then m.storedExt else m.storedInt) = some c)
    (hok : env.lastIdxOk branch = true)
    (hL : env.lastIdx branch = L)
    (hj1 : 1 ≤ j) (hjL : j ≤ L) (hjb : L - j < addressPoolBuffer)
    (hget : ∀ k, j ≤ k → k ≤ L → env.getAddressOk branch k = true)
    (hmatch : env.addrOf branch j = c)
    (hfirst : ∀ k, j < k → k ≤ L → env.addrOf branch k ≠ c) :
    initPool env branch s m =
      (true, { s with
                addresses := (List.range' j (L - j + 1)).map (env.addrOf branch)
                mutexSet := true
                branch := branch
                index := j
                cursor := 0
                started := true }) := by
  unfold initPool
  rw [if_neg (by simp [hns]), if_neg (by simp [hntu]), if_pos hbr]
  have hli : getLastAddressIndex env branch = (L, true) := by
    unfold getLastAddressIndex
    rw [if_pos (Or.symm hbr), if_pos (by simp [hok]), hL]
  rw [hli]
  have hfresh : ¬ ((L, true).1 = 0 ∧ (L, true).2 = true) := by
    simp only
    intro hcon
    omega
  rw [if_neg hfresh]
  rw [hsaved]
  rw [initLoop_first_match env branch c j hreuse hj1 hmatch addressPoolBuffer L []
    hjL (by omega) hget hfirst]
  simp

def envC4 : Env := { envW with lastIdx := fun _ => 5 }

def mgrC4 : MgrState := { mgrW with storedExt := some 3 }

/-- C4 counterexample: with the highest known index 5 and the persisted
checkpoint address matching at index 3, `initialize` produces the window
`[3, 4, 5]` with pool index 3 — the matched checkpoint address (3, at the
matched index) is *included* in the window, not excluded as claimed. -/
theorem c4_matched_address_included_counterexample :
    mgrC4.storedExt = some (envC4.addrOf ExternalBranch 3) ∧
    initPool envC4 ExternalBranch NewAddressPool mgrC4 =
      (true, { NewAddressPool with
                addresses := [3, 4, 5]
                mutexSet := true
                branch := ExternalBranch
                index := 3
                cursor := 0
                started := true }) ∧
    (3 : Addr) ∈ (initPool envC4 ExternalBranch NewAddressPool mgrC4).2.addresses := by
  refine ⟨rfl, by decide, by decide⟩

/-- Witness for C4 (amended) at the concrete instance with checkpoint
match at index 3 below highest index 5. -/
theorem c4_checkpoint_walk_amended_witness :
    envC4.addressReuse = false ∧
    envC4.addrOf ExternalBranch 3 = 3 ∧
    initPool envC4 ExternalBranch NewAddressPool mgrC4 =
      (true, { NewAddressPool with
                addresses := (List.range' 3 (5 - 3 + 1)).map (envC4.addrOf ExternalBranch)
                mutexSet := true
                branch := ExternalBranch
                index := 3
                cursor := 0
                started := true }) :=
  ⟨rfl, rfl,
   c4_checkpoint_walk_amended envC4 ExternalBranch NewAddressPool mgrC4 3 3 5
     rfl rfl rfl (Or.inl rfl) rfl rfl rfl (by decide) (by decide) (by decide)
     (fun _ _ _ => rfl) rfl (fun k h1 h2 => by intro hk; simp only [envC4, envW] at hk; subst hk; omega)⟩

/-! ### C1 -/

theorem range'_drop : ∀ (i s n : Nat),
    (List.range' s n).drop i = List.range' (s + i) (n - i)
  | 0, s, n => by simp
  | i + 1, s, 0 => by simp
  | i + 1, s, n + 1 => by
    rw [List.range'_succ, List.drop_succ_cons, range'_drop i (s + 1) n]
    have h1 : s + 1 + i = s + (i + 1) := by omega
    have h2 : n - i = n + 1 - (i + 1) := by omega
    rw [h1, h2]

/-- Reading a derived window at a position: the element is the derivation of
`start + position`. -/
theorem window_elem {env : Env} {branch start len : Nat} {j : Nat} {a : Addr}
    (hj : ((List.range' start len).map (env.addrOf branch))[j]? = some a) :
    j < len ∧ a = env.addrOf branch (start + j) := by
  have hlen : j < len := by
    obtain ⟨hl, -⟩ := List.getElem?_eq_some.mp hj
    simpa using hl
  have hr : (List.range' start len)[j]? = some (start + j) := by
    have h2 := List.getElem?_range' start 1 hlen
    simpa using h2
  rw [List.getElem?_map, hr] at hj
  simp at hj
  exact ⟨hlen, hj.symm⟩

/-- Appending a replenishment batch to a good window yields the longer
contiguous derived window. -/
theorem good_window_append (env : Env) (s : PoolState) (m : MgrState)
    (hg : Good env s m) :
    s.addresses ++ (List.range addressPoolBuffer).map
        (fun i => env.addrOf s.branch (m.nextIdx s.branch + i)) =
      (List.range' (m.nextIdx s.branch - s.addresses.length)
        (s.addresses.length + addressPoolBuffer)).map (env.addrOf s.branch) := by
  obtain ⟨-, -, hlen, hw⟩ := hg
  have hmap : (List.range addressPoolBuffer).map
      (fun i => env.addrOf s.branch (m.nextIdx s.branch + i)) =
      (List.range' (m.nextIdx s.branch) addressPoolBuffer).map (env.addrOf s.branch) := by
    rw [List.range'_eq_map_range, List.map_map]
    rfl
  rw [hmap]
  conv_lhs => rw [hw]
  rw [← List.map_append]
  congr 1
  rw [Nat.add_comm s.addresses.length addressPoolBuffer]
  rw [← List.range'_append_1 (m.nextIdx s.branch - s.addresses.length)
    s.addresses.length addressPoolBuffer]
  have hsplit : m.nextIdx s.branch - s.addresses.length + s.addresses.length =
      m.nextIdx s.branch := by omega
  rw [hsplit]

/-- The manager state after one replenishment on a branch. -/
def bumpMgr (m : MgrState) (branch : Nat) : MgrState :=
  { m with nextIdx := fun b => if b = branch then m.nextIdx b + addressPoolBuffer else m.nextIdx b }

theorem bumpMgr_nextIdx_self (m : MgrState) (branch : Nat) :
    (bumpMgr m branch).nextIdx branch = m.nextIdx branch + addressPoolBuffer := by
  unfold bumpMgr
  simp

theorem nextAddresses_buffer_cases (env : Env) (m : MgrState) (branch : Nat) :
    nextAddresses env m branch addressPoolBuffer =
      (some ((List.range addressPoolBuffer).map
        (fun i => env.addrOf branch (m.nextIdx branch + i))), bumpMgr m branch) ∨
    nextAddresses env m branch addressPoolBuffer = (none, m) := by
  unfold nextAddresses bumpMgr
  by_cases hk : env.nextAddrsOk branch (m.nextIdx branch)
  · rw [if_pos (by simp [hk])]
    exact Or.inl rfl
  · rw [if_neg (by simp [hk])]
    exact Or.inr rfl

/-- `GetNewAddress` preserves the `Good` coupling, keeps the branch and the
window start unchanged, and any returned address is the derivation at the
window frontier `winStart + cursor`. -/
theorem good_get (env : Env) (s : PoolState) (m : MgrState) (hg : Good env s m) :
    Good env (GetNewAddress env s m).2.1 (GetNewAddress env s m).2.2 ∧
    (GetNewAddress env s m).2.1.branch = s.branch ∧
    winStart (GetNewAddress env s m).2.1 (GetNewAddress env s m).2.2 = winStart s m ∧
    ∀ a, (GetNewAddress env s m).1 = some a →
      a = env.addrOf s.branch (winStart s m + s.cursor.toNat) := by
  obtain ⟨hg0, hgle, hglen, hgw⟩ := hg
  by_cases hst : s.started = false
  · unfold GetNewAddress
    rw [if_pos hst]
    exact ⟨⟨hg0, hgle, hglen, hgw⟩, rfl, rfl, by simp⟩
  · by_cases hrep : needRep s
    · by_cases hbr : s.branch = InternalBranch ∨ s.branch = ExternalBranch
      · unfold GetNewAddress
        rw [if_neg hst, if_pos hrep, if_pos hbr]
        rcases nextAddresses_buffer_cases env m s.branch with hN | hN
        · rw [hN]
          have hwin := good_window_append env s m ⟨hg0, hgle, hglen, hgw⟩
          have hbump := bumpMgr_nextIdx_self m s.branch
          set L20 := (List.range addressPoolBuffer).map (fun i => env.addrOf s.branch (m.nextIdx s.branch + i)) with hL20
          have hlen20 : L20.length = addressPoolBuffer := by
            rw [hL20]
            simp
          have hout : ∀ a, (finishGet env { s with addresses := s.addresses ++ L20 } (bumpMgr m s.branch)).1 = some a →
              a = env.addrOf s.branch (winStart s m + s.cursor.toNat) := by
            intro a ha
            obtain ⟨-, hidx, -⟩ := finishGet_some_spec ha
            simp only at hidx
            rw [hwin] at hidx
            obtain ⟨-, hval⟩ := window_elem hidx
            rw [hval, winStart]
          rcases finishGet_state_cases env { s with addresses := s.addresses ++ L20 } (bumpMgr m s.branch) with hcase | ⟨b, hb, hcase⟩
          · have h1 := congrArg Prod.fst hcase
            have h2 := congrArg Prod.snd hcase
            simp only at h1 h2
            refine ⟨?_, ?_, ?_, hout⟩
            · rw [h1, h2]
              refine ⟨hg0, ?_, ?_, ?_⟩
              · simp only [List.length_append, hlen20]
                push_cast
                omega
              · simp only [List.length_append, hlen20, hbump]
                omega
              · simp only [List.length_append, hlen20, hbump]
                have harith : m.nextIdx s.branch + addressPoolBuffer -
                    (s.addresses.length + addressPoolBuffer) =
                    m.nextIdx s.branch - s.addresses.length := by omega
                rw [harith]
                exact hwin
            · rw [h1]
            · rw [winStart, h1, h2, winStart]
              simp only [List.length_append, hlen20, hbump]
              omega
          · have h1 := congrArg Prod.fst hcase
            have h2 := congrArg Prod.snd hcase
            simp only at h1 h2
            obtain ⟨hlt, -⟩ := List.getElem?_eq_some.mp hb
            simp only [List.length_append, hlen20] at hlt
            refine ⟨?_, ?_, ?_, hout⟩
            · rw [h1, h2]
              refine ⟨by simp only; omega, ?_, ?_, ?_⟩
              · simp only [List.length_append, hlen20]
                push_cast
                omega
              · simp only [List.length_append, hlen20, hbump]
                omega
              · simp only [List.length_append, hlen20, hbump]
                have harith : m.nextIdx s.branch + addressPoolBuffer -
                    (s.addresses.length + addressPoolBuffer) =
                    m.nextIdx s.branch - s.addresses.length := by omega
                rw [harith]
                exact hwin
            · rw [h1]
            · rw [winStart, h1, h2, winStart]
              simp only [List.length_append, hlen20, hbump]
              omega
        · rw [hN]
          exact ⟨⟨hg0, hgle, hglen, hgw⟩, rfl, rfl, by simp⟩
      · unfold GetNewAddress
        rw [if_neg hst, if_pos hrep, if_neg hbr]
        exact ⟨⟨hg0, hgle, hglen, hgw⟩, rfl, rfl, by simp⟩
    · unfold GetNewAddress
      rw [if_neg hst, if_neg hrep]
      have hout : ∀ a, (finishGet env s m).1 = some a →
          a = env.addrOf s.branch (winStart s m + s.cursor.toNat) := by
        intro a ha
        obtain ⟨-, hidx, -⟩ := finishGet_some_spec ha
        rw [hgw] at hidx
        obtain ⟨-, hval⟩ := window_elem hidx
        rw [hval, winStart]
      rcases finishGet_state_cases env s m with hcase | ⟨b, hb, hcase⟩
      · have h1 := congrArg Prod.fst hcase
        have h2 := congrArg Prod.snd hcase
        simp only at h1 h2
        rw [h1, h2]
        exact ⟨⟨hg0, hgle, hglen, hgw⟩, rfl, rfl, hout⟩
      · have h1 := congrArg Prod.fst hcase
        have h2 := congrArg Prod.snd hcase
        simp only at h1 h2
        obtain ⟨hlt, -⟩ := List.getElem?_eq_some.mp hb
        refine ⟨?_, ?_, ?_, hout⟩
        · rw [h1, h2]
          exact ⟨by simp only; omega, by simp only; omega, hglen, hgw⟩
        · rw [h1]
        · rw [winStart, h1, h2, winStart]

theorem storeNextToUse_nextIdx (env : Env) (m : MgrState) (e i : Option Addr) :
    (StoreNextToUseAddresses env m e i).2.nextIdx = m.nextIdx := by
  unfold StoreNextToUseAddresses
  by_cases hs : env.storeOk = true
  · rw [if_pos (by simp [hs])]
  · rw [if_neg (by simp [hs])]

theorem batchFinish_mgr_nextIdx (env : Env) (s : PoolState) (m : MgrState) :
    (BatchFinish env s m).2.nextIdx = m.nextIdx := by
  unfold BatchFinish
  split
  · rfl
  · simp only
    split_ifs
    · exact storeNextToUse_nextIdx env m _ _
    · exact storeNextToUse_nextIdx env m _ _
    · rfl

/-- `BatchFinish` preserves the `Good` coupling, keeps the branch, and moves
the window start up by exactly the consumed cursor. -/
theorem good_finish (env : Env) (s : PoolState) (m : MgrState) (hg : Good env s m) :
    Good env (BatchFinish env s m).1 (BatchFinish env s m).2 ∧
    (BatchFinish env s m).1.branch = s.branch ∧
    winStart (BatchFinish env s m).1 (BatchFinish env s m).2 =
      winStart s m + s.cursor.toNat := by
  obtain ⟨hg0, hgle, hglen, hgw⟩ := hg
  have hN := batchFinish_mgr_nextIdx env s m
  have haddr : (BatchFinish env s m).1.addresses = s.addresses.drop s.cursor.toNat ∧
      (BatchFinish env s m).1.cursor = 0 ∧ (BatchFinish env s m).1.branch = s.branch := by
    unfold BatchFinish
    by_cases hc : (s.addresses.length : Int) ≤ s.cursor
    · rw [if_pos hc]
      refine ⟨?_, rfl, rfl⟩
      have hcl : s.addresses.length ≤ s.cursor.toNat := by omega
      simp [List.drop_eq_nil_of_le hcl]
    · rw [if_neg hc]
      exact ⟨rfl, rfl, rfl⟩
  obtain ⟨ha, hc0, hbr⟩ := haddr
  have htn : s.cursor.toNat ≤ s.addresses.length := by omega
  have hlendrop : (BatchFinish env s m).1.addresses.length =
      s.addresses.length - s.cursor.toNat := by
    rw [ha]
    simp
  have hwdrop : (BatchFinish env s m).1.addresses =
      (List.range' (m.nextIdx s.branch - (s.addresses.length - s.cursor.toNat))
        (s.addresses.length - s.cursor.toNat)).map (env.addrOf s.branch) := by
    rw [ha]
    conv_lhs => rw [hgw]
    rw [← List.map_drop, range'_drop]
    have h1 : m.nextIdx s.branch - s.addresses.length + s.cursor.toNat =
        m.nextIdx s.branch - (s.addresses.length - s.cursor.toNat) := by omega
    rw [h1]
  refine ⟨⟨by rw [hc0], by rw [hc0]; exact Int.natCast_nonneg _, ?_, ?_⟩, hbr, ?_⟩
  · rw [hlendrop, hbr, hN]
    omega
  · rw [hbr, hN, hlendrop]
    exact hwdrop
  · rw [winStart, winStart, hbr, hN, hlendrop]
    omega

theorem good_rollback (env : Env) (s : PoolState) (m : MgrState) (hg : Good env s m) :
    Good env (BatchRollback s) m ∧ (BatchRollback s).branch = s.branch ∧
    winStart (BatchRollback s) m = winStart s m := by
  obtain ⟨hg0, hgle, hglen, hgw⟩ := hg
  exact ⟨⟨le_refl 0, Int.natCast_nonneg _, hglen, hgw⟩, rfl, rfl⟩

/-- Every address handed out along any operation sequence from a good state
is derived at an index at or above the current window start. -/
theorem outputs_lower_bound (env : Env) :
    ∀ (t : List PoolOp) (s : PoolState) (m : MgrState), Good env s m →
      ∀ a ∈ outputs env t (s, m),
        ∃ j, winStart s m ≤ j ∧ a = env.addrOf s.branch j := by
  intro t
  induction t with
  | nil =>
    intro s m hg a ha
    simp [outputs] at ha
  | cons op ops ih =>
    intro s m hg a ha
    cases op with
    | get =>
      simp only [outputs] at ha
      obtain ⟨hgood, hbr, hws, hout⟩ := good_get env s m hg
      split at ha
      · next b s1 m1 heq =>
        rw [heq] at hgood hbr hws hout
        simp only at hgood hbr hws hout
        rcases List.mem_cons.mp ha with rfl | hmem
        · exact ⟨winStart s m + s.cursor.toNat, by omega, hout a rfl⟩
        · obtain ⟨j, hj1, hj2⟩ := ih s1 m1 hgood a hmem
          rw [hws] at hj1
          rw [hbr] at hj2
          exact ⟨j, hj1, hj2⟩
      · next s1 m1 heq =>
        rw [heq] at hgood hbr hws
        simp only at hgood hbr hws
        obtain ⟨j, hj1, hj2⟩ := ih s1 m1 hgood a ha
        rw [hws] at hj1
        rw [hbr] at hj2
        exact ⟨j, hj1, hj2⟩
    | finish =>
      simp only [outputs] at ha
      obtain ⟨hgood, hbr, hws⟩ := good_finish env s m hg
      obtain ⟨j, hj1, hj2⟩ := ih _ _ hgood a ha
      rw [hws] at hj1
      rw [hbr] at hj2
      exact ⟨j, by omega, hj2⟩
    | rollback =>
      simp only [outputs] at ha
      obtain ⟨hgood, hbr, hws⟩ := good_rollback env s m hg
      obtain ⟨j, hj1, hj2⟩ := ih _ _ hgood a ha
      rw [hws] at hj1
      rw [hbr] at hj2
      exact ⟨j, hj1, hj2⟩

/-- Through a fully successful batch from a good state: goodness, branch and
window start are preserved, the cursor advances by the batch size, and every
address of the batch is derived at an index in the half-open frontier range
of length `n` starting at `winStart + cursor`. -/
theorem allocN_good (env : Env) :
    ∀ (n : Nat) (s : PoolState) (m : MgrState) (as : List Addr),
      Good env s m →
      (allocN env n (s, m)).1 = some as →
      Good env (allocN env n (s, m)).2.1 (allocN env n (s, m)).2.2 ∧
      (allocN env n (s, m)).2.1.branch = s.branch ∧
      winStart (allocN env n (s, m)).2.1 (allocN env n (s, m)).2.2 = winStart s m ∧
      (allocN env n (s, m)).2.1.cursor.toNat = s.cursor.toNat + n ∧
      ∀ a ∈ as, ∃ j, winStart s m + s.cursor.toNat ≤ j ∧
        j < winStart s m + s.cursor.toNat + n ∧ a = env.addrOf s.branch j := by
  intro n
  induction n with
  | zero =>
    intro s m as hg hsome
    rw [allocN_zero] at hsome
    obtain rfl : as = [] := by simpa using hsome.symm
    rw [allocN_zero]
    exact ⟨hg, rfl, rfl, by simp, by intro a ha; simp at ha⟩
  | succ n ih =>
    intro s m as hg hsome
    rw [allocN_succ] at hsome
    simp only at hsome
    rcases heq1 : GetNewAddress env s m with ⟨r1, s1, m1⟩
    rw [heq1] at hsome
    cases r1 with
    | none => simp at hsome
    | some a =>
      simp only at hsome
      rcases heq2 : allocN env n (s1, m1) with ⟨r2, sm2⟩
      rw [heq2] at hsome
      cases r2 with
      | none => simp at hsome
      | some as' =>
        simp only at hsome
        obtain rfl : as = a :: as' := by simpa using hsome.symm
        have hga : (GetNewAddress env s m).1 = some a := by rw [heq1]
        obtain ⟨hgood1, hbr1, hws1, hout1⟩ := good_get env s m hg
        have hcadv := (get_some_adv hga).1
        rw [heq1] at hgood1 hbr1 hws1 hout1 hcadv
        simp only at hgood1 hbr1 hws1 hout1 hcadv
        have haval : a = env.addrOf s.branch (winStart s m + s.cursor.toNat) :=
          hout1 a rfl
        have hg0 : 0 ≤ s.cursor := hg.1
        have hc1 : s1.cursor.toNat = s.cursor.toNat + 1 := by
          rw [hcadv]
          omega
        have hsome' : (allocN env n (s1, m1)).1 = some as' := by rw [heq2]
        have IH := ih s1 m1 as' hgood1 hsome'
        rw [heq2] at IH
        simp only at IH
        obtain ⟨IHg, IHbr, IHws, IHc, IHmem⟩ := IH
        have hval : allocN env (n + 1) (s, m) = (some (a :: as'), sm2) := by
          rw [allocN_succ]
          simp only
          rw [heq1]
          simp only
          rw [heq2]
        rw [hval]
        simp only
        refine ⟨IHg, ?_, ?_, ?_, ?_⟩
        · rw [IHbr, hbr1]
        · rw [IHws, hws1]
        · rw [IHc, hc1]
          omega
        · intro b hb
          rcases List.mem_cons.mp hb with rfl | hmem
          · exact ⟨winStart s m + s.cursor.toNat, le_refl _, by omega, haval⟩
          · obtain ⟨j, hj1, hj2, hj3⟩ := IHmem b hmem
            rw [hws1, hc1] at hj1 hj2
            rw [hbr1] at hj3
            exact ⟨j, by omega, by omega, hj3⟩

/-- C1: a run of `n` successful `GetNewAddress` calls on a started pool
followed by one `BatchFinish` leaves `cursor = 0`, and — the derivation
being injective on the pool's branch, with address reuse disabled — no
address returned during that batch is ever returned again by any later
sequence of pool operations. -/
theorem c1_commit_no_reissue (env : Env) (s : PoolState) (m : MgrState)
    (n : Nat) (as : List Addr) (t : List PoolOp)
    (hinj : Function.Injective (env.addrOf s.branch))
    (hreuse : env.addressReuse = false)
    (hstart : s.started = true)
    (hgood : Good env s m)
    (halloc : (allocN env n (s, m)).1 = some as) :
    (BatchFinish env (allocN env n (s, m)).2.1 (allocN env n (s, m)).2.2).1.cursor = 0 ∧
    ∀ a ∈ outputs env t
        (BatchFinish env (allocN env n (s, m)).2.1 (allocN env n (s, m)).2.2),
      a ∉ as := by
  obtain ⟨hgood1, hbr1, hws1, hcur1, hmem⟩ := allocN_good env n s m as hgood halloc
  obtain ⟨hgood2, hbr2, hws2⟩ :=
    good_finish env (allocN env n (s, m)).2.1 (allocN env n (s, m)).2.2 hgood1
  refine ⟨batchFinish_cursor_zero _ _ _, ?_⟩
  intro a ha hain
  obtain ⟨j, hj1, hj2⟩ := outputs_lower_bound env t _ _ hgood2 a
    (by
      have hpair : ((BatchFinish env (allocN env n (s, m)).2.1
          (allocN env n (s, m)).2.2).1,
          (BatchFinish env (allocN env n (s, m)).2.1
          (allocN env n (s, m)).2.2).2) =
          BatchFinish env (allocN env n (s, m)).2.1 (allocN env n (s, m)).2.2 := rfl
      rw [hpair]
      exact ha)
  obtain ⟨k, hk1, hk2, hk3⟩ := hmem a hain
  rw [hws2, hws1, hcur1] at hj1
  rw [hbr2, hbr1] at hj2
  have hkj : k = j := hinj (by rw [← hk3, ← hj2])
  omega

/-- Witness for C1: one allocation from the fresh started pool, committed;
the subsequent allocation does not return address 0 again. -/
theorem c1_commit_no_reissue_witness :
    (allocN envW 1 (poolW, mgrW)).1 = some [0] ∧ Good envW poolW mgrW ∧
    ((BatchFinish envW (allocN envW 1 (poolW, mgrW)).2.1
        (allocN envW 1 (poolW, mgrW)).2.2).1.cursor = 0 ∧
     ∀ a ∈ outputs envW [PoolOp.get]
        (BatchFinish envW (allocN envW 1 (poolW, mgrW)).2.1
          (allocN envW 1 (poolW, mgrW)).2.2),
       a ∉ ([0] : List Addr)) :=
  ⟨by decide, by unfold Good; decide,
   c1_commit_no_reissue envW poolW mgrW 1 [0] [PoolOp.get]
     Function.injective_id rfl rfl (by unfold Good; decide) (by decide)⟩
